import Mathlib

/-!
Verification of the ZENTRO streaming chat component
(`src/components/ChatInterface.tsx`, reached from `src/App.tsx`).

The component keeps an ordered list of messages and a pending flag
(`isLoading`).  `handleSubmit` guards on trimmed-empty input / pending,
appends a user message, opens a streaming exchange with the model,
appends a placeholder assistant message, folds the stream's chunks into
a content accumulator and a deduplicated source list (patching the
placeholder by id on text-bearing chunks), and on any fault appends a
fixed apology message; the pending flag is cleared on every exit path.

The embedding below translates that logic one-to-one.  Wall-clock reads
(`Date.now()`) become explicit natural-number parameters `t0` (submit
time), `t1` (time the stream is obtained) and `t2` (fault time); message
ids are the decimal strings the code builds from them (`Nat.repr`).
The nondeterministic behaviour of the external model capability is an
explicit `StreamOutcome`: a fault before the placeholder is appended, or
a consumed list of chunks optionally followed by a fault.
-/

/-- Message role: the `role: 'user' | 'assistant'` field. -/
inductive Role where
  | user : Role
  | assistant : Role
deriving DecidableEq, Repr

/-- A grounding citation `{ uri: string; title: string }`. -/
structure Source where
  uri : String
  title : String
deriving DecidableEq, Repr

/-- One conversation turn (the `Message` interface).  `timestamp` is the
`Date` creation time, modelled as the millisecond clock value; `sources`
is the optional citation list (`sources?:`). -/
structure Message where
  id : String
  role : Role
  content : String
  timestamp : Nat
  sources : Option (List Source)
deriving DecidableEq, Repr

/-- The `web` field of a grounding chunk: both `uri` and `title` are
optional in the SDK's type. -/
structure WebInfo where
  uri : Option String
  title : Option String
deriving DecidableEq, Repr

/-- One entry of `groundingMetadata.groundingChunks`. -/
structure GroundingChunk where
  web : Option WebInfo
deriving DecidableEq, Repr

/-- One streamed response chunk: `chunk.text` (optional text delta) and
`chunk.candidates?.[0]?.groundingMetadata?.groundingChunks` (optional
citation list), flattened to the two fields the loop reads. -/
structure Chunk where
  text : Option String
  groundingChunks : Option (List GroundingChunk)
deriving DecidableEq, Repr

/-- The greeting message the conversation state is initialised with. -/
def greeting : Message :=
  { id := "1"
    role := Role.assistant
    content := "Hello! I'm your Gemini-powered assistant. How can I help you today?"
    timestamp := 0
    sources := none }

/-- The fixed apology text appended on a fault. -/
def apologyText : String := "I'm sorry, I encountered an error. Please try again."

/-- JavaScript's `String.prototype.trim()`, modelled structurally:
strip leading and trailing whitespace from the character data.  (Lean's
own `String.trim` is defined by well-founded recursion on byte
positions, which the kernel cannot evaluate; this equivalent structural
form keeps the guard executable inside proofs.) -/
def jsTrim (s : String) : String :=
  ⟨((s.data.dropWhile Char.isWhitespace).reverse.dropWhile Char.isWhitespace).reverse⟩

/-- `setMessages(prev => prev.map(msg => msg.id === id ? { ...msg,
content, sources } : msg))`: patch the content and sources of every
message whose id matches, leave the rest untouched. -/
def updateById (msgs : List Message) (id : String) (content : String)
    (sources : Option (List Source)) : List Message :=
  msgs.map fun m => if m.id = id then { m with content := content, sources := sources } else m

/-- The body of `groundingChunks.forEach(c => ...)`: JavaScript truthiness
of `c.web?.uri && c.web?.title` means both fields must be present and
non-empty; `!sources.find(s => s.uri === c.web?.uri)` pushes only a
first occurrence of the uri. -/
def addGrounding (sources : List Source) (c : GroundingChunk) : List Source :=
  match c.web with
  | none => sources
  | some w =>
    match w.uri, w.title with
    | some u, some t =>
      if u ≠ "" ∧ t ≠ "" then
        if (sources.find? fun s => s.uri = u).isSome then sources
        else sources ++ [{ uri := u, title := t }]
      else sources
    | some _, none => sources
    | none, some _ => sources
    | none, none => sources

/-- Folding a whole `groundingChunks` array into the running source list. -/
def mergeSources (sources : List Source) (cs : List GroundingChunk) : List Source :=
  cs.foldl addGrounding sources

/-- The per-exchange mutable state inside the `for await` loop: the
message list (React state), the content accumulator `assistantContent`
and the running source list `sources`. -/
structure StreamState where
  messages : List Message
  content : String
  sources : List Source
deriving DecidableEq, Repr

/-- One iteration of `for await (const chunk of responseStream)`:
merge grounding citations, then, when `chunkText` is truthy (present and
non-empty), extend the accumulator and patch the placeholder with the
full accumulated content and, when non-empty, the full source list. -/
def processChunk (phId : String) (st : StreamState) (ch : Chunk) : StreamState :=
  let sources' :=
    match ch.groundingChunks with
    | some gcs => mergeSources st.sources gcs
    | none => st.sources
  match ch.text with
  | some s =>
    if s ≠ "" then
      let content' := st.content ++ s
      { messages :=
          updateById st.messages phId content'
            (if sources'.length > 0 then some sources' else none)
        content := content'
        sources := sources' }
    else { st with sources := sources' }
  | none => { st with sources := sources' }

/-- How one exchange with the external model capability unfolds:
`failEarly` is a throw during context creation or `sendMessageStream`
(before the placeholder is appended); `chunks cs fault` means the
placeholder was appended, the chunks `cs` were consumed in order, and
then either the iteration faulted (`fault = true`) or the stream ended
normally. -/
inductive StreamOutcome where
  | failEarly : StreamOutcome
  | chunks : List Chunk → Bool → StreamOutcome
deriving DecidableEq, Repr

/-- The component state `handleSubmit` leaves behind: the message list,
the `isLoading` flag and the input field. -/
structure SubmitResult where
  messages : List Message
  isLoading : Bool
  input : String
deriving DecidableEq, Repr

/-- The user message built on submit: id `Date.now().toString()`,
the raw (untrimmed) `input` as content, no sources. -/
def mkUserMsg (input : String) (t0 : Nat) : Message :=
  { id := Nat.repr t0, role := Role.user, content := input, timestamp := t0, sources := none }

/-- The placeholder assistant message: id `(Date.now() + 1).toString()`,
empty content, no sources. -/
def mkPlaceholder (t1 : Nat) : Message :=
  { id := Nat.repr (t1 + 1), role := Role.assistant, content := "", timestamp := t1,
    sources := none }

/-- The apology message appended in the `catch` block. -/
def mkErrorMsg (t2 : Nat) : Message :=
  { id := Nat.repr t2, role := Role.assistant, content := apologyText, timestamp := t2,
    sources := none }

/-- `handleSubmit`, with the clock reads and the stream outcome made
explicit.  `t0` is the clock at submit, `t1` the clock when the stream
is obtained (placeholder id `t1 + 1`), `t2` the clock at a fault.
Guard: `if (!input.trim() || isLoading) return;`.  The `finally` block
clears `isLoading` on every path that entered the exchange. -/
def handleSubmit (msgs : List Message) (input : String) (isLoading : Bool)
    (t0 t1 t2 : Nat) (outcome : StreamOutcome) : SubmitResult :=
  if jsTrim input = "" ∨ isLoading = true then
    { messages := msgs, isLoading := isLoading, input := input }
  else
    let msgs1 := msgs ++ [mkUserMsg input t0]
    match outcome with
    | StreamOutcome.failEarly =>
      { messages := msgs1 ++ [mkErrorMsg t2], isLoading := false, input := "" }
    | StreamOutcome.chunks cs fault =>
      let phId := Nat.repr (t1 + 1)
      let msgs2 := msgs1 ++ [mkPlaceholder t1]
      let final := cs.foldl (processChunk phId) { messages := msgs2, content := "", sources := [] }
      if fault then
        { messages := final.messages ++ [mkErrorMsg t2], isLoading := false, input := "" }
      else
        { messages := final.messages, isLoading := false, input := "" }

/-- One observed submit event in a session: whether the pending flag was
set when it ran (a submission during a pending exchange), the input, the
three clock reads and the stream outcome. -/
structure ExchangeEnv where
  loading : Bool
  input : String
  t0 : Nat
  t1 : Nat
  t2 : Nat
  outcome : StreamOutcome
deriving DecidableEq, Repr

/-- A whole session: the initial greeting state threaded through a
sequence of submit events. -/
def runSession (events : List ExchangeEnv) : List Message :=
  events.foldl
    (fun msgs e => (handleSubmit msgs e.input e.loading e.t0 e.t1 e.t2 e.outcome).messages)
    [greeting]

/-- The id list of a message list. -/
def idsOf (msgs : List Message) : List String := msgs.map Message.id

/-- The clock values from which one event mints message ids: `t0` for
the user message, `t1 + 1` for the placeholder, `t2` for the apology;
none for a rejected submission. -/
def eventNatIds (e : ExchangeEnv) : List Nat :=
  if jsTrim e.input = "" ∨ e.loading = true then []
  else
    match e.outcome with
    | StreamOutcome.failEarly => [e.t0, e.t2]
    | StreamOutcome.chunks _ fault => if fault then [e.t0, e.t1 + 1, e.t2] else [e.t0, e.t1 + 1]

/-- Clock spacing: every read is at least `b`, the reads of one event
are at least 2 apart, and the next event starts at least 2 after the
previous event's last read. -/
def Spaced : Nat → List ExchangeEnv → Prop
  | _, [] => True
  | b, e :: es =>
    b ≤ e.t0 ∧ e.t0 + 2 ≤ e.t1 ∧ e.t1 + 2 ≤ e.t2 ∧ Spaced (e.t2 + 2) es

/-- The text deltas a chunk list carries, in order. -/
def chunkTexts (cs : List Chunk) : List String := cs.filterMap Chunk.text

/-- The complete citation pair a grounding chunk delivers, if any: both
fields present and non-empty (the pairs the code can ever keep). -/
def webPair (c : GroundingChunk) : Option Source :=
  match c.web with
  | none => none
  | some w =>
    match w.uri, w.title with
    | some u, some t => if u ≠ "" ∧ t ≠ "" then some { uri := u, title := t } else none
    | some _, none => none
    | none, some _ => none
    | none, none => none

/-- All complete non-empty citation pairs a grounding-chunk list
delivers, in delivery order. -/
def validPairs (cs : List GroundingChunk) : List Source := cs.filterMap webPair

/-- Keep a pair unless its uri is already present. -/
def push1 (sources : List Source) (p : Source) : List Source :=
  if (sources.find? fun s => s.uri = p.uri).isSome then sources else sources ++ [p]

/-- Fold a pair list through `push1`. -/
def pushAll (sources : List Source) (l : List Source) : List Source := l.foldl push1 sources

/-- The source list after one chunk's grounding merge (the value bound
to `sources'` inside `processChunk`). -/
def chunkSources (st : StreamState) (ch : Chunk) : List Source :=
  match ch.groundingChunks with
  | some gcs => mergeSources st.sources gcs
  | none => st.sources

/-- An optional pending patch for the placeholder: at most one
`(content, sources)` pair, applied to every message whose id is the
placeholder's.  The net effect of any run of the stream loop on the
message list is `map (applyPatch phId u)` for some such `u`. -/
def applyPatch (phId : String) (u : Option (String × Option (List Source)))
    (m : Message) : Message :=
  match u with
  | none => m
  | some (c, s) => if m.id = phId then { m with content := c, sources := s } else m

/-! ### Injectivity of the decimal id encoding

The code mints ids with `Date.now().toString()`; distinct clock values
give distinct id strings.  We prove `Nat.repr` injective by relating
core's fuel-based `Nat.toDigitsCore` to `Nat.digits`. -/

theorem digitChar_inj_lt10 :
    ∀ d < 10, ∀ e < 10, Nat.digitChar d = Nat.digitChar e → d = e := by decide

theorem toDigitsCore_eq_digits :
    ∀ (fuel n : Nat) (ds : List Char), 0 < n → n ≤ fuel →
      Nat.toDigitsCore 10 fuel n ds = ((Nat.digits 10 n).map Nat.digitChar).reverse ++ ds := by
  intro fuel
  induction fuel with
  | zero => intro n ds h1 h2; omega
  | succ f ih =>
    intro n ds h1 h2
    rw [Nat.toDigitsCore]
    by_cases hd : n / 10 = 0
    · have hn10 : n < 10 := by omega
      rw [if_pos hd, Nat.digits_def' (by norm_num : 1 < 10) h1, hd, Nat.digits_zero]
      simp
    · rw [if_neg hd]
      have hpos : 0 < n / 10 := Nat.pos_of_ne_zero hd
      have hle : n / 10 ≤ f := by
        have := Nat.div_lt_self h1 (by norm_num : 1 < 10)
        omega
      rw [ih (n / 10) (Nat.digitChar (n % 10) :: ds) hpos hle,
        Nat.digits_def' (by norm_num : 1 < 10) h1]
      simp

theorem toDigits_eq_digits (n : Nat) (h : 0 < n) :
    Nat.toDigits 10 n = ((Nat.digits 10 n).map Nat.digitChar).reverse := by
  rw [Nat.toDigits, toDigitsCore_eq_digits (n + 1) n [] h (Nat.le_succ n), List.append_nil]

theorem map_digitChar_inj :
    ∀ (l1 l2 : List Nat), (∀ d ∈ l1, d < 10) → (∀ d ∈ l2, d < 10) →
      l1.map Nat.digitChar = l2.map Nat.digitChar → l1 = l2 := by
  intro l1
  induction l1 with
  | nil => intro l2 _ _ h; cases l2 <;> simp_all
  | cons a t ih =>
    intro l2 h1 h2 h
    cases l2 with
    | nil => simp at h
    | cons b t2 =>
      simp only [List.map_cons, List.cons.injEq] at h
      have ha : a = b :=
        digitChar_inj_lt10 a (h1 a (List.mem_cons_self a t)) b
          (h2 b (List.mem_cons_self b t2)) h.1
      have ht : t = t2 :=
        ih t2 (fun d hd => h1 d (List.mem_cons_of_mem a hd))
          (fun d hd => h2 d (List.mem_cons_of_mem b hd)) h.2
      rw [ha, ht]

theorem natRepr_injective : Function.Injective Nat.repr := by
  intro m n h
  have hdig : Nat.toDigits 10 m = Nat.toDigits 10 n := by
    have := congrArg String.data h
    simpa [Nat.repr, List.asString] using this
  rcases Nat.eq_zero_or_pos m with hm | hm
  · rcases Nat.eq_zero_or_pos n with hn | hn
    · omega
    · exfalso
      rw [hm, toDigits_eq_digits n hn] at hdig
      have h0 : Nat.toDigits 10 0 = ['0'] := rfl
      rw [h0] at hdig
      have hrev : (Nat.digits 10 n).map Nat.digitChar = ['0'] := by
        have := congrArg List.reverse hdig
        simpa using this.symm
      rcases hmap : Nat.digits 10 n with _ | ⟨d, ds⟩
      · rw [hmap] at hrev; simp at hrev
      · rw [hmap] at hrev
        rcases ds with _ | ⟨d2, ds2⟩
        · simp only [List.map_cons, List.map_nil, List.cons.injEq] at hrev
          have hd10 : d < 10 :=
            Nat.digits_lt_base (by norm_num) (hmap ▸ List.mem_cons_self d [])
          have hd0 : d = 0 :=
            digitChar_inj_lt10 d hd10 0 (by norm_num) (by simpa using hrev.1)
          have := Nat.ofDigits_digits 10 n
          rw [hmap, hd0] at this
          simp [Nat.ofDigits] at this
          omega
        · simp at hrev
  · rcases Nat.eq_zero_or_pos n with hn | hn
    · exfalso
      rw [hn, toDigits_eq_digits m hm] at hdig
      have h0 : Nat.toDigits 10 0 = ['0'] := rfl
      rw [h0] at hdig
      have hrev : (Nat.digits 10 m).map Nat.digitChar = ['0'] := by
        have := congrArg List.reverse hdig
        simpa using this
      rcases hmap : Nat.digits 10 m with _ | ⟨d, ds⟩
      · rw [hmap] at hrev; simp at hrev
      · rw [hmap] at hrev
        rcases ds with _ | ⟨d2, ds2⟩
        · simp only [List.map_cons, List.map_nil, List.cons.injEq] at hrev
          have hd10 : d < 10 :=
            Nat.digits_lt_base (by norm_num) (hmap ▸ List.mem_cons_self d [])
          have hd0 : d = 0 :=
            digitChar_inj_lt10 d hd10 0 (by norm_num) (by simpa using hrev.1)
          have := Nat.ofDigits_digits 10 m
          rw [hmap, hd0] at this
          simp [Nat.ofDigits] at this
          omega
        · simp at hrev
    · rw [toDigits_eq_digits m hm, toDigits_eq_digits n hn] at hdig
      have hmaps := List.reverse_injective hdig
      have hdigits : Nat.digits 10 m = Nat.digits 10 n :=
        map_digitChar_inj _ _ (fun d hd => Nat.digits_lt_base (by norm_num) hd)
          (fun d hd => Nat.digits_lt_base (by norm_num) hd) hmaps
      have := congrArg (Nat.ofDigits 10) hdigits
      rwa [Nat.ofDigits_digits, Nat.ofDigits_digits] at this

theorem natRepr_ne {a b : Nat} (h : a ≠ b) : Nat.repr a ≠ Nat.repr b :=
  fun he => h (natRepr_injective he)

/-! ### Helper lemmas about the stream fold -/

theorem string_join_cons (s : String) (l : List String) :
    String.join (s :: l) = s ++ String.join l := by
  apply String.ext
  simp [String.join_eq]

theorem updateById_idsOf (msgs : List Message) (id content : String)
    (sources : Option (List Source)) :
    idsOf (updateById msgs id content sources) = idsOf msgs := by
  simp only [idsOf, updateById, List.map_map]
  apply List.map_congr_left
  intro m _
  by_cases h : m.id = id <;> simp [h]

theorem processChunk_none (phId : String) (st : StreamState) (ch : Chunk)
    (h : ch.text = none) :
    processChunk phId st ch = { st with sources := chunkSources st ch } := by
  cases hg : ch.groundingChunks <;> simp [processChunk, chunkSources, h, hg]

theorem processChunk_empty (phId : String) (st : StreamState) (ch : Chunk)
    (h : ch.text = some "") :
    processChunk phId st ch = { st with sources := chunkSources st ch } := by
  cases hg : ch.groundingChunks <;> simp [processChunk, chunkSources, h, hg]

theorem processChunk_some (phId : String) (st : StreamState) (ch : Chunk) (s : String)
    (h : ch.text = some s) (hs : s ≠ "") :
    processChunk phId st ch =
      { messages :=
          updateById st.messages phId (st.content ++ s)
            (if (chunkSources st ch).length > 0 then some (chunkSources st ch) else none)
        content := st.content ++ s
        sources := chunkSources st ch } := by
  cases hg : ch.groundingChunks <;> simp [processChunk, chunkSources, h, hg, hs]

theorem processChunk_idsOf (phId : String) (st : StreamState) (ch : Chunk) :
    idsOf (processChunk phId st ch).messages = idsOf st.messages := by
  cases h : ch.text with
  | none => rw [processChunk_none phId st ch h]
  | some s =>
    by_cases hs : s = ""
    · rw [hs] at h; rw [processChunk_empty phId st ch h]
    · rw [processChunk_some phId st ch s h hs]
      exact updateById_idsOf _ _ _ _

theorem foldl_processChunk_idsOf (phId : String) :
    ∀ (cs : List Chunk) (st : StreamState),
      idsOf (cs.foldl (processChunk phId) st).messages = idsOf st.messages := by
  intro cs
  induction cs with
  | nil => intro st; rfl
  | cons ch cs ih => intro st; rw [List.foldl_cons, ih, processChunk_idsOf]

theorem foldl_processChunk_content (phId : String) :
    ∀ (cs : List Chunk) (st : StreamState),
      (cs.foldl (processChunk phId) st).content = st.content ++ String.join (chunkTexts cs) := by
  intro cs
  induction cs with
  | nil => intro st; simp [chunkTexts, String.join]
  | cons ch cs ih =>
    intro st
    rw [List.foldl_cons, ih]
    cases h : ch.text with
    | none =>
      rw [processChunk_none phId st ch h]
      simp [chunkTexts, h]
    | some s =>
      by_cases hs : s = ""
      · rw [hs] at h
        rw [processChunk_empty phId st ch h]
        simp [chunkTexts, h, string_join_cons]
      · rw [processChunk_some phId st ch s h hs]
        simp [chunkTexts, h, string_join_cons, String.append_assoc]

theorem updateById_eq_applyPatch (msgs : List Message) (id content : String)
    (sources : Option (List Source)) :
    updateById msgs id content sources = msgs.map (applyPatch id (some (content, sources))) := rfl

theorem applyPatch_comp (phId : String) (u : Option (String × Option (List Source)))
    (c : String) (s : Option (List Source)) (m : Message) :
    applyPatch phId u (applyPatch phId (some (c, s)) m) =
      applyPatch phId (some (u.getD (c, s))) m := by
  cases u with
  | none => rfl
  | some p =>
    obtain ⟨c2, s2⟩ := p
    by_cases h : m.id = phId <;> simp [applyPatch, h]

theorem foldl_processChunk_struct (phId : String) :
    ∀ (cs : List Chunk) (st : StreamState),
      ∃ u, (cs.foldl (processChunk phId) st).messages = st.messages.map (applyPatch phId u) := by
  intro cs
  induction cs with
  | nil =>
    intro st
    refine ⟨none, ?_⟩
    rw [show applyPatch phId none = fun m => m from rfl, List.map_id', List.foldl_nil]
  | cons ch cs ih =>
    intro st
    rw [List.foldl_cons]
    obtain ⟨u, hu⟩ := ih (processChunk phId st ch)
    cases h : ch.text with
    | none =>
      refine ⟨u, ?_⟩
      rw [hu, processChunk_none phId st ch h]
    | some s =>
      by_cases hs : s = ""
      · refine ⟨u, ?_⟩
        rw [hs] at h
        rw [hu, processChunk_empty phId st ch h]
      · refine ⟨some (u.getD (st.content ++ s,
          if (chunkSources st ch).length > 0 then some (chunkSources st ch) else none)), ?_⟩
        rw [hu, processChunk_some phId st ch s h hs]
        simp only [updateById_eq_applyPatch, List.map_map]
        apply List.map_congr_left
        intro m _
        exact applyPatch_comp phId u _ _ m

/-! ### Helper lemmas about the source merge -/

theorem addGrounding_eq (s : List Source) (c : GroundingChunk) :
    addGrounding s c =
      match webPair c with
      | none => s
      | some p => push1 s p := by
  cases hw : c.web with
  | none => simp [addGrounding, webPair, hw]
  | some w =>
    cases hu : w.uri with
    | none => cases ht : w.title <;> simp [addGrounding, webPair, hw, hu, ht]
    | some u =>
      cases ht : w.title with
      | none => simp [addGrounding, webPair, hw, hu, ht]
      | some t =>
        by_cases hc : u ≠ "" ∧ t ≠ "" <;>
          simp [addGrounding, webPair, push1, hw, hu, ht, hc]

theorem mergeSources_eq_pushAll :
    ∀ (cs : List GroundingChunk) (s : List Source),
      mergeSources s cs = pushAll s (validPairs cs) := by
  intro cs
  induction cs with
  | nil => intro s; rfl
  | cons c cs ih =>
    intro s
    have h1 : mergeSources s (c :: cs) = mergeSources (addGrounding s c) cs := rfl
    rw [h1, ih, addGrounding_eq]
    cases h : webPair c with
    | none => simp [validPairs, List.filterMap_cons, h]
    | some p => simp [validPairs, pushAll, List.filterMap_cons, h]

theorem pushAll_sublist :
    ∀ (l s : List Source), ∃ t, pushAll s l = s ++ t ∧ t.Sublist l := by
  intro l
  induction l with
  | nil => intro s; exact ⟨[], by simp [pushAll]⟩
  | cons p l ih =>
    intro s
    have h1 : pushAll s (p :: l) = pushAll (push1 s p) l := rfl
    by_cases h : (s.find? fun q => q.uri = p.uri).isSome
    · obtain ⟨t, ht1, ht2⟩ := ih s
      refine ⟨t, ?_, ht2.cons p⟩
      rw [h1, push1, if_pos h, ht1]
    · obtain ⟨t, ht1, ht2⟩ := ih (s ++ [p])
      refine ⟨p :: t, ?_, ht2.cons₂ p⟩
      rw [h1, push1, if_neg h, ht1]
      simp

theorem push1_mem (s : List Source) (p q : Source) (h : q ∈ s) : q ∈ push1 s p := by
  rw [push1]
  split
  · exact h
  · exact List.mem_append_left _ h

theorem pushAll_mem_of_mem :
    ∀ (l s : List Source) (q : Source), q ∈ s → q ∈ pushAll s l := by
  intro l
  induction l with
  | nil => intro s q h; exact h
  | cons p l ih =>
    intro s q h
    exact ih (push1 s p) q (push1_mem s p q h)

theorem pushAll_covers :
    ∀ (l s : List Source) (u : String),
      ((∃ q ∈ l, q.uri = u) ∨ (∃ q ∈ s, q.uri = u)) →
      ∃ q ∈ pushAll s l, q.uri = u := by
  intro l
  induction l with
  | nil =>
    intro s u h
    rcases h with ⟨q, hq, _⟩ | h
    · exact absurd hq (List.not_mem_nil q)
    · exact h
  | cons p l ih =>
    intro s u h
    have h1 : pushAll s (p :: l) = pushAll (push1 s p) l := rfl
    rw [h1]
    rcases h with ⟨q, hq, he⟩ | ⟨q, hq, he⟩
    · rcases List.mem_cons.mp hq with rfl | hq'
      · -- the head pair itself: its uri ends up present in `push1 s p`
        apply ih
        right
        rw [push1]
        by_cases hf : (s.find? fun r => r.uri = q.uri).isSome
        · rw [if_pos hf]
          obtain ⟨x, hx, hxe⟩ := List.find?_isSome.mp hf
          have hxq : x.uri = q.uri := by simpa using hxe
          exact ⟨x, hx, hxq.trans he⟩
        · rw [if_neg hf]
          exact ⟨q, List.mem_append_right _ (List.mem_singleton_self q), he⟩
      · exact ih (push1 s p) u (Or.inl ⟨q, hq', he⟩)
    · exact ih (push1 s p) u (Or.inr ⟨q, push1_mem s p q hq, he⟩)

theorem pushAll_pairwise :
    ∀ (l s : List Source), s.Pairwise (fun a b => a.uri ≠ b.uri) →
      (pushAll s l).Pairwise (fun a b => a.uri ≠ b.uri) := by
  intro l
  induction l with
  | nil => intro s hs; exact hs
  | cons p l ih =>
    intro s hs
    have h1 : pushAll s (p :: l) = pushAll (push1 s p) l := rfl
    rw [h1]
    apply ih
    rw [push1]
    by_cases h : (s.find? fun q => q.uri = p.uri).isSome
    · rw [if_pos h]; exact hs
    · rw [if_neg h]
      have hn : s.find? (fun q => q.uri = p.uri) = none := by
        cases hf : s.find? fun q => q.uri = p.uri with
        | none => rfl
        | some x => rw [hf] at h; simp at h
      have hall : ∀ q ∈ s, q.uri ≠ p.uri := by
        intro q hq
        have := List.find?_eq_none.mp hn q hq
        simpa using this
      rw [List.pairwise_append]
      refine ⟨hs, List.pairwise_singleton _ _, ?_⟩
      intro a ha b hb
      rw [List.mem_singleton.mp hb]
      exact hall a ha

theorem pushAll_find?_of_found (l s : List Source) (u : String) (x : Source)
    (h : s.find? (fun q => q.uri = u) = some x) :
    (pushAll s l).find? (fun q => q.uri = u) = some x := by
  obtain ⟨t, ht, _⟩ := pushAll_sublist l s
  rw [ht, List.find?_append, h]
  rfl

theorem pushAll_find?_of_none :
    ∀ (l s : List Source) (u : String), s.find? (fun q => q.uri = u) = none →
      (pushAll s l).find? (fun q => q.uri = u) = l.find? (fun q => q.uri = u) := by
  intro l
  induction l with
  | nil => intro s u h; rw [pushAll, List.foldl_nil, h, List.find?_nil]
  | cons p l ih =>
    intro s u h
    have h1 : pushAll s (p :: l) = pushAll (push1 s p) l := rfl
    rw [h1]
    by_cases hu : p.uri = u
    · have hsp : s.find? (fun q => q.uri = p.uri) = none := by rw [hu]; exact h
      have hpush : push1 s p = s ++ [p] := by
        rw [push1, if_neg]
        rw [hsp]
        simp
      have hfind : (push1 s p).find? (fun q => q.uri = u) = some p := by
        rw [hpush, List.find?_append, h]
        simp [hu]
      rw [pushAll_find?_of_found l (push1 s p) u p hfind]
      simp [hu]
    · have hs' : (push1 s p).find? (fun q => q.uri = u) = none := by
        rw [push1]
        split
        · exact h
        · rw [List.find?_append, h]
          simp [hu]
      rw [ih (push1 s p) u hs']
      rw [List.find?_cons_of_neg]
      simp [hu]

theorem pushAll_fixed :
    ∀ (l s : List Source), (∀ p ∈ l, ∃ q ∈ s, q.uri = p.uri) → pushAll s l = s := by
  intro l
  induction l with
  | nil => intro s _; rfl
  | cons p l ih =>
    intro s h
    have h1 : pushAll s (p :: l) = pushAll (push1 s p) l := rfl
    have hp : push1 s p = s := by
      rw [push1, if_pos]
      rw [List.find?_isSome]
      obtain ⟨q, hq, he⟩ := h p (List.mem_cons_self p l)
      exact ⟨q, hq, by simp [he]⟩
    rw [h1, hp]
    exact ih s fun p' hp' => h p' (List.mem_cons_of_mem p hp')

theorem countP_uri_eq_one (u : String) :
    ∀ (L : List Source), L.Pairwise (fun a b => a.uri ≠ b.uri) → (∃ q ∈ L, q.uri = u) →
      L.countP (fun s => s.uri = u) = 1 := by
  intro L
  induction L with
  | nil => intro _ hm; obtain ⟨q, hq, _⟩ := hm; exact absurd hq (List.not_mem_nil q)
  | cons a t ih =>
    intro hp hm
    obtain ⟨ha, hpt⟩ := List.pairwise_cons.mp hp
    by_cases hau : a.uri = u
    · have ht0 : t.countP (fun s => s.uri = u) = 0 := by
        rw [List.countP_eq_zero]
        intro b hb
        simp only [decide_eq_true_eq]
        rw [← hau]
        exact (ha b hb).symm
      rw [List.countP_cons_of_pos _ _ (by simp [hau]), ht0]
    · obtain ⟨q, hq, he⟩ := hm
      rcases List.mem_cons.mp hq with rfl | hq'
      · exact absurd he hau
      · rw [List.countP_cons_of_neg _ _ (by simp [hau])]
        exact ih hpt ⟨q, hq', he⟩

/-! ### Helper lemmas about sessions and ids -/

theorem natRepr_one : Nat.repr 1 = "1" := rfl

theorem handleSubmit_guard (msgs : List Message) (input : String) (isLoading : Bool)
    (t0 t1 t2 : Nat) (outcome : StreamOutcome) (h : jsTrim input = "" ∨ isLoading = true) :
    handleSubmit msgs input isLoading t0 t1 t2 outcome =
      { messages := msgs, isLoading := isLoading, input := input } := by
  rw [handleSubmit, if_pos h]

theorem handleSubmit_failEarly (msgs : List Message) (input : String) (isLoading : Bool)
    (t0 t1 t2 : Nat) (h : ¬(jsTrim input = "" ∨ isLoading = true)) :
    handleSubmit msgs input isLoading t0 t1 t2 StreamOutcome.failEarly =
      { messages := (msgs ++ [mkUserMsg input t0]) ++ [mkErrorMsg t2]
        isLoading := false, input := "" } := by
  rw [handleSubmit, if_neg h]

theorem handleSubmit_chunks (msgs : List Message) (input : String) (isLoading : Bool)
    (t0 t1 t2 : Nat) (cs : List Chunk) (fault : Bool)
    (h : ¬(jsTrim input = "" ∨ isLoading = true)) :
    handleSubmit msgs input isLoading t0 t1 t2 (StreamOutcome.chunks cs fault) =
      { messages :=
          (cs.foldl (processChunk (Nat.repr (t1 + 1)))
            { messages := (msgs ++ [mkUserMsg input t0]) ++ [mkPlaceholder t1]
              content := "", sources := [] }).messages ++
            (if fault then [mkErrorMsg t2] else [])
        isLoading := false, input := "" } := by
  rw [handleSubmit, if_neg h]
  cases fault <;> simp

theorem handleSubmit_idsOf (msgs : List Message) (e : ExchangeEnv) :
    idsOf (handleSubmit msgs e.input e.loading e.t0 e.t1 e.t2 e.outcome).messages =
      idsOf msgs ++ (eventNatIds e).map Nat.repr := by
  by_cases hg : jsTrim e.input = "" ∨ e.loading = true
  · rw [handleSubmit_guard _ _ _ _ _ _ _ hg, eventNatIds, if_pos hg]
    simp
  · rw [eventNatIds, if_neg hg]
    cases ho : e.outcome with
    | failEarly =>
      rw [handleSubmit_failEarly _ _ _ _ _ _ hg]
      simp [idsOf, mkUserMsg, mkErrorMsg]
    | chunks cs fault =>
      rw [handleSubmit_chunks _ _ _ _ _ _ _ _ hg]
      have hf := foldl_processChunk_idsOf (Nat.repr (e.t1 + 1)) cs
        { messages := (msgs ++ [mkUserMsg e.input e.t0]) ++ [mkPlaceholder e.t1]
          content := "", sources := [] }
      cases fault with
      | false =>
        simp [idsOf, List.append_assoc, mkUserMsg, mkPlaceholder] at hf ⊢
        simp [hf]
      | true =>
        simp [idsOf, List.append_assoc, mkUserMsg, mkPlaceholder, mkErrorMsg] at hf ⊢
        simp [hf]

theorem runSession_idsOf :
    ∀ (events : List ExchangeEnv) (msgs : List Message),
      idsOf (events.foldl
        (fun ms e => (handleSubmit ms e.input e.loading e.t0 e.t1 e.t2 e.outcome).messages) msgs) =
      idsOf msgs ++ ((events.map eventNatIds).flatten).map Nat.repr := by
  intro events
  induction events with
  | nil => intro msgs; simp
  | cons e es ih =>
    intro msgs
    rw [List.foldl_cons, ih, handleSubmit_idsOf]
    simp [List.append_assoc]

theorem eventNatIds_mem_bounds (e : ExchangeEnv) :
    ∀ x ∈ eventNatIds e,
      min e.t0 (min (e.t1 + 1) e.t2) ≤ x ∧ x ≤ max (e.t1 + 1) (max e.t0 e.t2) := by
  intro x hx
  rw [eventNatIds] at hx
  by_cases hg : jsTrim e.input = "" ∨ e.loading = true
  · rw [if_pos hg] at hx
    simp at hx
  · rw [if_neg hg] at hx
    cases ho : e.outcome with
    | failEarly =>
      rw [ho] at hx
      simp only [List.mem_cons, List.not_mem_nil, or_false] at hx
      rcases hx with rfl | rfl <;> omega
    | chunks cs fault =>
      rw [ho] at hx
      cases fault with
      | false =>
        simp only [Bool.false_eq_true, if_false, List.mem_cons, List.not_mem_nil,
          or_false] at hx
        rcases hx with rfl | rfl <;> omega
      | true =>
        simp only [if_true, List.mem_cons, List.not_mem_nil, or_false] at hx
        rcases hx with rfl | rfl | rfl <;> omega

theorem eventNatIds_pairwise (e : ExchangeEnv)
    (h1 : e.t0 + 2 ≤ e.t1) (h2 : e.t1 + 2 ≤ e.t2) :
    (eventNatIds e).Pairwise (· < ·) := by
  rw [eventNatIds]
  by_cases hg : jsTrim e.input = "" ∨ e.loading = true
  · rw [if_pos hg]
    exact List.Pairwise.nil
  · rw [if_neg hg]
    cases ho : e.outcome with
    | failEarly =>
      refine List.Pairwise.cons ?_ (List.pairwise_singleton _ _)
      intro a ha
      rw [List.mem_singleton.mp ha]
      omega
    | chunks cs fault =>
      cases fault with
      | false =>
        refine List.Pairwise.cons ?_ (List.pairwise_singleton _ _)
        intro a ha
        rw [List.mem_singleton.mp ha]
        omega
      | true =>
        refine List.Pairwise.cons ?_
          (List.Pairwise.cons ?_ (List.pairwise_singleton _ _))
        · intro a ha
          rcases List.mem_cons.mp ha with rfl | ha
          · omega
          · rw [List.mem_singleton.mp ha]
            omega
        · intro a ha
          rw [List.mem_singleton.mp ha]
          omega

theorem spaced_flatten_lt :
    ∀ (events : List ExchangeEnv) (b : Nat), Spaced b events →
      ((events.map eventNatIds).flatten).Pairwise (· < ·) ∧
        ∀ x ∈ (events.map eventNatIds).flatten, b ≤ x := by
  intro events
  induction events with
  | nil =>
    intro b _
    exact ⟨List.Pairwise.nil, by intro x hx; simp at hx⟩
  | cons e es ih =>
    intro b hs
    obtain ⟨h0, h1, h2, hrest⟩ := hs
    obtain ⟨ihp, ihb⟩ := ih (e.t2 + 2) hrest
    have hbound := eventNatIds_mem_bounds e
    have hmax : max (e.t1 + 1) (max e.t0 e.t2) = e.t2 := by omega
    constructor
    · rw [List.map_cons, List.flatten_cons, List.pairwise_append]
      refine ⟨eventNatIds_pairwise e h1 h2, ihp, ?_⟩
      intro a ha x hx
      have hb := ihb x hx
      have ha2 := (hbound a ha).2
      rw [hmax] at ha2
      omega
    · intro x hx
      rw [List.map_cons, List.flatten_cons, List.mem_append] at hx
      rcases hx with hx | hx
      · have := (hbound x hx).1
        omega
      · have := ihb x hx
        omega

theorem eventNatIds_ge_two (e : ExchangeEnv)
    (h0 : 2 ≤ e.t0) (h1 : 1 ≤ e.t1) (h2 : 2 ≤ e.t2) :
    ∀ x ∈ eventNatIds e, 2 ≤ x := by
  intro x hx
  have := eventNatIds_mem_bounds e x hx
  omega

theorem handleSubmit_head (msgs : List Message) (e : ExchangeEnv)
    (hh : msgs.head? = some greeting)
    (hph : Nat.repr (e.t1 + 1) ≠ "1") :
    (handleSubmit msgs e.input e.loading e.t0 e.t1 e.t2 e.outcome).messages.head? =
      some greeting := by
  by_cases hg : jsTrim e.input = "" ∨ e.loading = true
  · rw [handleSubmit_guard _ _ _ _ _ _ _ hg]
    exact hh
  · cases ho : e.outcome with
    | failEarly =>
      rw [handleSubmit_failEarly _ _ _ _ _ _ hg]
      simp [hh]
    | chunks cs fault =>
      rw [handleSubmit_chunks _ _ _ _ _ _ _ _ hg]
      obtain ⟨u, hu⟩ := foldl_processChunk_struct (Nat.repr (e.t1 + 1)) cs
        { messages := (msgs ++ [mkUserMsg e.input e.t0]) ++ [mkPlaceholder e.t1]
          content := "", sources := [] }
      have hg1 : applyPatch (Nat.repr (e.t1 + 1)) u greeting = greeting := by
        cases u with
        | none => rfl
        | some p =>
          obtain ⟨c, s⟩ := p
          rw [applyPatch, if_neg]
          intro hcon
          exact hph (by rw [← hcon]; rfl)
      simp only [] at hu
      rw [hu]
      simp [hh, hg1]

theorem handleSubmit_count_one (msgs : List Message) (e : ExchangeEnv)
    (h0 : 2 ≤ e.t0) (h1 : 1 ≤ e.t1) (h2 : 2 ≤ e.t2)
    (hc : (idsOf msgs).count "1" = 1) :
    (idsOf (handleSubmit msgs e.input e.loading e.t0 e.t1 e.t2 e.outcome).messages).count "1"
      = 1 := by
  rw [handleSubmit_idsOf, List.count_append, hc]
  have hz : ((eventNatIds e).map Nat.repr).count "1" = 0 := by
    rw [List.count_eq_zero]
    intro hmem
    obtain ⟨x, hx, hrx⟩ := List.mem_map.mp hmem
    have hx2 : 2 ≤ x := by
      have := eventNatIds_mem_bounds e x hx
      omega
    have hx1 : x = 1 := natRepr_injective (by rw [hrx, natRepr_one])
    omega
  omega

theorem session_invariant :
    ∀ (events : List ExchangeEnv) (msgs : List Message),
      (∀ e ∈ events, 2 ≤ e.t0 ∧ 1 ≤ e.t1 ∧ 2 ≤ e.t2) →
      msgs.head? = some greeting → (idsOf msgs).count "1" = 1 →
      (events.foldl
          (fun ms e => (handleSubmit ms e.input e.loading e.t0 e.t1 e.t2 e.outcome).messages)
          msgs).head? = some greeting ∧
        (idsOf (events.foldl
          (fun ms e => (handleSubmit ms e.input e.loading e.t0 e.t1 e.t2 e.outcome).messages)
          msgs)).count "1" = 1 := by
  intro events
  induction events with
  | nil => intro msgs _ hh hc; exact ⟨hh, hc⟩
  | cons e es ih =>
    intro msgs hev hh hc
    obtain ⟨h0, h1, h2⟩ := hev e (List.mem_cons_self e es)
    have hph : Nat.repr (e.t1 + 1) ≠ "1" := by
      rw [← natRepr_one]
      exact natRepr_ne (by omega)
    rw [List.foldl_cons]
    exact ih _ (fun x hx => hev x (List.mem_cons_of_mem e hx))
      (handleSubmit_head msgs e hh hph)
      (handleSubmit_count_one msgs e h0 h1 h2 hc)

theorem applyPatch_of_ne (phId : String) (u : Option (String × Option (List Source)))
    (m : Message) (h : ¬ m.id = phId) : applyPatch phId u m = m := by
  cases u with
  | none => rfl
  | some p =>
    obtain ⟨c, s⟩ := p
    rw [applyPatch, if_neg h]

theorem applyPatch_id (phId : String) (u : Option (String × Option (List Source)))
    (m : Message) : (applyPatch phId u m).id = m.id := by
  cases u with
  | none => rfl
  | some p =>
    obtain ⟨c, s⟩ := p
    rw [applyPatch]
    by_cases h : m.id = phId
    · rw [if_pos h]
    · rw [if_neg h]

theorem applyPatch_role (phId : String) (u : Option (String × Option (List Source)))
    (m : Message) : (applyPatch phId u m).role = m.role := by
  cases u with
  | none => rfl
  | some p =>
    obtain ⟨c, s⟩ := p
    rw [applyPatch]
    by_cases h : m.id = phId
    · rw [if_pos h]
    · rw [if_neg h]

theorem applyPatch_timestamp (phId : String) (u : Option (String × Option (List Source)))
    (m : Message) : (applyPatch phId u m).timestamp = m.timestamp := by
  cases u with
  | none => rfl
  | some p =>
    obtain ⟨c, s⟩ := p
    rw [applyPatch]
    by_cases h : m.id = phId
    · rw [if_pos h]
    · rw [if_neg h]

theorem map_applyPatch_of_fresh (phId : String) (u : Option (String × Option (List Source)))
    (msgs : List Message) (h : phId ∉ idsOf msgs) :
    msgs.map (applyPatch phId u) = msgs := by
  induction msgs with
  | nil => rfl
  | cons m ms ih =>
    have hm : ¬ m.id = phId := by
      intro hcon
      apply h
      rw [idsOf, List.map_cons, hcon]
      exact List.mem_cons_self phId _
    have hms : phId ∉ idsOf ms := by
      intro hx
      apply h
      rw [idsOf, List.map_cons]
      exact List.mem_cons_of_mem _ hx
    rw [List.map_cons, applyPatch_of_ne phId u m hm, ih hms]

theorem foldl_processChunk_content_inv (phId : String) :
    ∀ (cs : List Chunk) (st : StreamState),
      (∀ m ∈ st.messages, m.id = phId → m.content = st.content) →
      ∀ m ∈ (cs.foldl (processChunk phId) st).messages, m.id = phId →
        m.content = (cs.foldl (processChunk phId) st).content := by
  intro cs
  induction cs with
  | nil => intro st h; exact h
  | cons ch cs ih =>
    intro st h
    rw [List.foldl_cons]
    apply ih
    cases ht : ch.text with
    | none =>
      rw [processChunk_none phId st ch ht]
      exact h
    | some s =>
      by_cases hs : s = ""
      · rw [hs] at ht
        rw [processChunk_empty phId st ch ht]
        exact h
      · rw [processChunk_some phId st ch s ht hs]
        intro m hm hmid
        rw [updateById] at hm
        obtain ⟨m0, _, hm0⟩ := List.mem_map.mp hm
        by_cases h0 : m0.id = phId
        · rw [if_pos h0] at hm0
          rw [← hm0]
        · rw [if_neg h0] at hm0
          rw [← hm0] at hmid
          exact absurd hmid h0

/-! ### Claim theorems -/

/-- C5: for every input that is empty or whitespace-only after trimming,
and for every submission made while an exchange is pending, submit is a
silent no-op: no error is raised, the message list (and its count) is
unchanged, and no exchange is started — the whole component state is
returned untouched. -/
theorem c5_empty_or_pending_submit_noop (msgs : List Message) (input : String)
    (isLoading : Bool) (t0 t1 t2 : Nat) (outcome : StreamOutcome)
    (h : jsTrim input = "" ∨ isLoading = true) :
    handleSubmit msgs input isLoading t0 t1 t2 outcome =
      { messages := msgs, isLoading := isLoading, input := input } :=
  handleSubmit_guard msgs input isLoading t0 t1 t2 outcome h

/-- Witness for C5: a whitespace-only input is a no-op on the initial state. -/
theorem c5_empty_or_pending_submit_noop_witness :
    (jsTrim "  " = "" ∨ false = true) ∧
      handleSubmit [greeting] "  " false 5 6 7 StreamOutcome.failEarly =
        { messages := [greeting], isLoading := false, input := "  " } :=
  ⟨Or.inl (by decide),
    c5_empty_or_pending_submit_noop [greeting] "  " false 5 6 7 StreamOutcome.failEarly
      (Or.inl (by decide))⟩

/-- C8: for every id not present in the message list, `updateById` with
that id is a no-op: it does not throw, does not create a new entry, and
leaves the message sequence (every message and every field) unchanged. -/
theorem c8_updateById_unknown_id_noop :
    ∀ (msgs : List Message) (id content : String) (sources : Option (List Source)),
      id ∉ idsOf msgs → updateById msgs id content sources = msgs := by
  intro msgs
  induction msgs with
  | nil => intro id c s _; rfl
  | cons m ms ih =>
    intro id c s h
    have hm : ¬ m.id = id := by
      intro hcon
      apply h
      rw [idsOf, List.map_cons, hcon]
      exact List.mem_cons_self id _
    have hms : id ∉ idsOf ms := by
      intro hx
      apply h
      rw [idsOf, List.map_cons]
      exact List.mem_cons_of_mem _ hx
    rw [updateById, List.map_cons, if_neg hm]
    exact congrArg (m :: ·) (ih id c s hms)

/-- Witness for C8: patching an id that is not in the list leaves the
initial conversation untouched. -/
theorem c8_updateById_unknown_id_noop_witness :
    "99" ∉ idsOf [greeting] ∧ updateById [greeting] "99" "x" none = [greeting] :=
  ⟨by decide, c8_updateById_unknown_id_noop [greeting] "99" "x" none (by decide)⟩

/-- C6 counterexample: submitting `" hi "` (accepted, since it trims to
`"hi"`) stores a user message whose content is the raw `" hi "`, not the
trimmed text — `content: input` at line 62 uses the untrimmed input. -/
theorem c6_counterexample :
    ((handleSubmit [greeting] " hi " false 10 11 12 (StreamOutcome.chunks [] false)).messages.map
        Message.content)[1]? = some " hi " ∧ jsTrim " hi " = "hi" ∧ " hi " ≠ "hi" := by
  refine ⟨rfl, by decide, by decide⟩

/-- C6 (amended): for every accepted submission, the appended user
message carries the raw input text exactly as typed (trimming is used
only in the guard); the message sits right after the previous messages. -/
theorem c6_user_message_raw_input (msgs : List Message) (input : String)
    (t0 t1 t2 : Nat) (outcome : StreamOutcome) (hin : jsTrim input ≠ "")
    (hid : Nat.repr t0 ≠ Nat.repr (t1 + 1)) :
    ((handleSubmit msgs input false t0 t1 t2 outcome).messages.drop msgs.length).head? =
      some (mkUserMsg input t0) ∧ (mkUserMsg input t0).content = input := by
  have hg : ¬(jsTrim input = "" ∨ false = true) := by simp [hin]
  refine ⟨?_, rfl⟩
  cases outcome with
  | failEarly =>
    rw [handleSubmit_failEarly _ _ _ _ _ _ hg, List.append_assoc, List.drop_left]
    rfl
  | chunks cs fault =>
    rw [handleSubmit_chunks _ _ _ _ _ _ _ _ hg]
    obtain ⟨u, hu⟩ := foldl_processChunk_struct (Nat.repr (t1 + 1)) cs
      { messages := (msgs ++ [mkUserMsg input t0]) ++ [mkPlaceholder t1]
        content := "", sources := [] }
    simp only [] at hu
    rw [hu, List.map_append, List.map_append]
    have huser : (List.map (applyPatch (Nat.repr (t1 + 1)) u) [mkUserMsg input t0]) =
        [mkUserMsg input t0] := by
      rw [List.map_cons, List.map_nil, applyPatch_of_ne]
      exact hid
    rw [huser, List.append_assoc, List.append_assoc,
      List.drop_left' (List.length_map msgs (applyPatch (Nat.repr (t1 + 1)) u))]
    rfl

/-- Witness for C6 (amended): submitting `" hi "` stores `" hi "` itself. -/
theorem c6_user_message_raw_input_witness :
    (jsTrim " hi " ≠ "" ∧ Nat.repr 10 ≠ Nat.repr (11 + 1)) ∧
      (((handleSubmit [greeting] " hi " false 10 11 12 StreamOutcome.failEarly).messages.drop
          [greeting].length).head? = some (mkUserMsg " hi " 10) ∧
        (mkUserMsg " hi " 10).content = " hi ") :=
  ⟨⟨by decide, by decide⟩,
    c6_user_message_raw_input [greeting] " hi " 10 11 12 StreamOutcome.failEarly
      (by decide) (by decide)⟩

/-- C7 counterexample: a chunk carrying only citation metadata and no
text delta changes the source accumulator (it becomes non-empty), yet
the message list is left completely untouched — no `updateById` call
happens, so the placeholder still shows empty content and no sources. -/
theorem c7_counterexample :
    processChunk "7"
        (StreamState.mk [Message.mk "7" Role.assistant "" 5 none] "" [])
        (Chunk.mk none (some [GroundingChunk.mk (some (WebInfo.mk (some "https://x")
          (some "X")))])) =
      StreamState.mk [Message.mk "7" Role.assistant "" 5 none] ""
        [Source.mk "https://x" "X"] := rfl

/-- C7 (amended): the consumer calls `updateById` only after a chunk
carrying a truthy (present, non-empty) text delta; such an update writes
the full accumulated content and, when the merged source set is
non-empty, the full accumulated source list (otherwise `sources` is
unset).  A chunk with no text delta — even one that changes the source
accumulator — leaves the stored messages unchanged until the next
text-bearing chunk. -/
theorem c7_update_only_on_text_chunks (phId : String) (st : StreamState) (ch : Chunk) :
    ((ch.text = none ∨ ch.text = some "") →
      (processChunk phId st ch).messages = st.messages) ∧
    (∀ s, ch.text = some s → s ≠ "" →
      (processChunk phId st ch).messages =
        updateById st.messages phId (st.content ++ s)
          (if (chunkSources st ch).length > 0 then some (chunkSources st ch) else none)) := by
  constructor
  · intro h
    rcases h with h | h
    · rw [processChunk_none phId st ch h]
    · rw [processChunk_empty phId st ch h]
  · intro s h hs
    rw [processChunk_some phId st ch s h hs]

/-- Witness for C7 (amended): a text-bearing chunk patches the messages,
a text-free chunk leaves them alone. -/
theorem c7_update_only_on_text_chunks_witness :
    (processChunk "9" { messages := [], content := "a", sources := [] }
        { text := some "hi", groundingChunks := none }).messages =
      updateById [] "9" ("a" ++ "hi")
        (if (chunkSources { messages := [], content := "a", sources := [] }
            { text := some "hi", groundingChunks := none }).length > 0
          then some (chunkSources { messages := [], content := "a", sources := [] }
            { text := some "hi", groundingChunks := none })
          else none) ∧
    (processChunk "9" { messages := [], content := "a", sources := [] }
        { text := none, groundingChunks := none }).messages = [] :=
  ⟨(c7_update_only_on_text_chunks "9"
      { messages := [], content := "a", sources := [] }
      { text := some "hi", groundingChunks := none }).2 "hi" rfl (by decide),
    (c7_update_only_on_text_chunks "9"
      { messages := [], content := "a", sources := [] }
      { text := none, groundingChunks := none }).1 (Or.inl rfl)⟩

/-- C4: for every input that is non-empty after trimming and submitted
while no exchange is pending, submit appends exactly one user message
and then exactly one assistant placeholder message (empty content, no
sources, fresh id), in that order, before any chunk of the response
stream is processed: the result decomposes as the old messages, then the
user message, then the placeholder (possibly patched only by later
chunks), then the fault apology if any — and with an empty stream the
placeholder is exactly the pristine empty-content message. -/
theorem c4_user_then_placeholder (msgs : List Message) (input : String) (t0 t1 t2 : Nat)
    (cs : List Chunk) (fault : Bool) (hin : jsTrim input ≠ "")
    (hfresh : Nat.repr (t1 + 1) ∉ idsOf msgs)
    (hid : Nat.repr t0 ≠ Nat.repr (t1 + 1)) :
    ∃ ph,
      (handleSubmit msgs input false t0 t1 t2 (StreamOutcome.chunks cs fault)).messages =
        msgs ++ [mkUserMsg input t0, ph] ++ (if fault then [mkErrorMsg t2] else []) ∧
      ph.id = Nat.repr (t1 + 1) ∧ ph.role = Role.assistant ∧ ph.timestamp = t1 ∧
      (cs = [] → ph = mkPlaceholder t1) := by
  have hg : ¬(jsTrim input = "" ∨ false = true) := by simp [hin]
  obtain ⟨u, hu⟩ := foldl_processChunk_struct (Nat.repr (t1 + 1)) cs
    { messages := (msgs ++ [mkUserMsg input t0]) ++ [mkPlaceholder t1]
      content := "", sources := [] }
  simp only [] at hu
  have hmsgs : List.map (applyPatch (Nat.repr (t1 + 1)) u) msgs = msgs :=
    map_applyPatch_of_fresh (Nat.repr (t1 + 1)) u msgs hfresh
  have huser : applyPatch (Nat.repr (t1 + 1)) u (mkUserMsg input t0) = mkUserMsg input t0 :=
    applyPatch_of_ne (Nat.repr (t1 + 1)) u (mkUserMsg input t0) hid
  refine ⟨applyPatch (Nat.repr (t1 + 1)) u (mkPlaceholder t1), ?_, ?_, ?_, ?_, ?_⟩
  · rw [handleSubmit_chunks _ _ _ _ _ _ _ _ hg, hu, List.map_append, List.map_append,
      hmsgs, List.map_cons, List.map_nil, huser, List.map_cons, List.map_nil]
    simp [List.append_assoc]
  · exact applyPatch_id _ _ _
  · exact applyPatch_role _ _ _
  · exact applyPatch_timestamp _ _ _
  · intro hcs
    subst hcs
    rw [List.foldl_nil] at hu
    rw [List.map_append, List.map_append, hmsgs, List.map_cons, List.map_nil, huser,
      List.map_cons, List.map_nil] at hu
    have hu' : (msgs ++ [mkUserMsg input t0]) ++ [mkPlaceholder t1] =
        (msgs ++ [mkUserMsg input t0]) ++
          [applyPatch (Nat.repr (t1 + 1)) u (mkPlaceholder t1)] := hu
    have h4 := List.append_cancel_left hu'
    injection h4 with h5 h6
    exact h5.symm

/-- Witness for C4: a concrete accepted submission with an empty stream
appends exactly the user message and then the pristine placeholder. -/
theorem c4_user_then_placeholder_witness :
    (jsTrim "hi" ≠ "" ∧ Nat.repr (11 + 1) ∉ idsOf [greeting] ∧
      Nat.repr 10 ≠ Nat.repr (11 + 1)) ∧
      ∃ ph,
        (handleSubmit [greeting] "hi" false 10 11 12
            (StreamOutcome.chunks [] false)).messages =
          [greeting] ++ [mkUserMsg "hi" 10, ph] ++ (if false then [mkErrorMsg 12] else []) ∧
        ph.id = Nat.repr (11 + 1) ∧ ph.role = Role.assistant ∧ ph.timestamp = 11 ∧
        (([] : List Chunk) = [] → ph = mkPlaceholder 11) :=
  ⟨⟨by decide, by decide, by decide⟩,
    c4_user_then_placeholder [greeting] "hi" 10 11 12 [] false (by decide) (by decide)
      (by decide)⟩

/-- C1: for every exchange whose chunk stream carries text deltas
`d1..dN` in arrival order, the accumulated content after the first `k`
chunks equals the ordered concatenation of the deltas seen so far, and
the assistant message's final content equals `d1 ++ ... ++ dN` (no
reordering, no loss; chunks without a text field contribute nothing). -/
theorem c1_content_is_ordered_concatenation (msgs : List Message) (input : String)
    (t0 t1 t2 : Nat) (cs : List Chunk) (hin : jsTrim input ≠ "")
    (hfresh : Nat.repr (t1 + 1) ∉ idsOf msgs)
    (hid : Nat.repr t0 ≠ Nat.repr (t1 + 1)) :
    (∀ k, ((cs.take k).foldl (processChunk (Nat.repr (t1 + 1)))
        { messages := (msgs ++ [mkUserMsg input t0]) ++ [mkPlaceholder t1]
          content := "", sources := [] }).content =
        String.join (chunkTexts (cs.take k))) ∧
    ((handleSubmit msgs input false t0 t1 t2 (StreamOutcome.chunks cs false)).messages.filter
        (fun m => m.id = Nat.repr (t1 + 1))).map Message.content =
      [String.join (chunkTexts cs)] := by
  have hg : ¬(jsTrim input = "" ∨ false = true) := by simp [hin]
  constructor
  · intro k
    rw [foldl_processChunk_content]
    exact String.empty_append _
  · rw [handleSubmit_chunks _ _ _ _ _ _ _ _ hg]
    obtain ⟨u, hu⟩ := foldl_processChunk_struct (Nat.repr (t1 + 1)) cs
      { messages := (msgs ++ [mkUserMsg input t0]) ++ [mkPlaceholder t1]
        content := "", sources := [] }
    have hcontent := foldl_processChunk_content_inv (Nat.repr (t1 + 1)) cs
      { messages := (msgs ++ [mkUserMsg input t0]) ++ [mkPlaceholder t1]
        content := "", sources := [] }
      (by
        intro m hm hmid
        rcases List.mem_append.mp hm with hm' | hm'
        · rcases List.mem_append.mp hm' with hm'' | hm''
          · exact absurd hmid (by
              intro hcon
              exact hfresh (by rw [← hcon]; exact List.mem_map_of_mem Message.id hm''))
          · rw [List.mem_singleton.mp hm''] at hmid
            exact absurd hmid hid
        · rw [List.mem_singleton.mp hm']
          rfl)
    have hph : applyPatch (Nat.repr (t1 + 1)) u (mkPlaceholder t1) ∈
        (cs.foldl (processChunk (Nat.repr (t1 + 1)))
          { messages := (msgs ++ [mkUserMsg input t0]) ++ [mkPlaceholder t1]
            content := "", sources := [] }).messages := by
      rw [hu]
      exact List.mem_map_of_mem _ (List.mem_append_right _ (List.mem_singleton_self _))
    have hphc := hcontent _ hph (applyPatch_id _ _ _)
    rw [foldl_processChunk_content, String.empty_append] at hphc
    have hmsgs : List.map (applyPatch (Nat.repr (t1 + 1)) u) msgs = msgs :=
      map_applyPatch_of_fresh (Nat.repr (t1 + 1)) u msgs hfresh
    have huser : applyPatch (Nat.repr (t1 + 1)) u (mkUserMsg input t0) = mkUserMsg input t0 :=
      applyPatch_of_ne (Nat.repr (t1 + 1)) u (mkUserMsg input t0) hid
    simp only [Bool.false_eq_true, if_false, List.append_nil]
    rw [hu, List.map_append, List.map_append, hmsgs, List.map_cons, List.map_nil, huser,
      List.map_cons, List.map_nil, List.filter_append, List.filter_append]
    have hf1 : msgs.filter (fun m => m.id = Nat.repr (t1 + 1)) = [] := by
      rw [List.filter_eq_nil_iff]
      intro m hm
      simp only [decide_eq_true_eq]
      intro hcon
      exact hfresh (by rw [← hcon]; exact List.mem_map_of_mem Message.id hm)
    have hf2 : List.filter (fun m => m.id = Nat.repr (t1 + 1)) [mkUserMsg input t0] = [] := by
      rw [List.filter_eq_nil_iff]
      intro m hm
      rw [List.mem_singleton.mp hm]
      simp only [decide_eq_true_eq]
      exact hid
    have hf3 : List.filter (fun m => m.id = Nat.repr (t1 + 1))
        [applyPatch (Nat.repr (t1 + 1)) u (mkPlaceholder t1)] =
        [applyPatch (Nat.repr (t1 + 1)) u (mkPlaceholder t1)] := by
      rw [List.filter_cons]
      have : (applyPatch (Nat.repr (t1 + 1)) u (mkPlaceholder t1)).id =
          Nat.repr (t1 + 1) := applyPatch_id _ _ _
      simp [this]
    rw [hf1, hf2, hf3, List.nil_append, List.nil_append, List.map_cons, List.map_nil, hphc]

/-- Witness for C1: a two-chunk stream `["Hi ", "there!"]` yields prefix
content `"Hi "` after one chunk and final message content exactly the
concatenation. -/
theorem c1_content_is_ordered_concatenation_witness :
    (jsTrim "hi" ≠ "" ∧ Nat.repr (11 + 1) ∉ idsOf [greeting] ∧
      Nat.repr 10 ≠ Nat.repr (11 + 1)) ∧
    (([Chunk.mk (some "Hi ") none, Chunk.mk (some "there!") none].take 1).foldl
        (processChunk (Nat.repr (11 + 1)))
        { messages := ([greeting] ++ [mkUserMsg "hi" 10]) ++ [mkPlaceholder 11]
          content := "", sources := [] }).content =
      String.join (chunkTexts ([Chunk.mk (some "Hi ") none,
        Chunk.mk (some "there!") none].take 1)) ∧
    ((handleSubmit [greeting] "hi" false 10 11 12
        (StreamOutcome.chunks [Chunk.mk (some "Hi ") none,
          Chunk.mk (some "there!") none] false)).messages.filter
        (fun m => m.id = Nat.repr (11 + 1))).map Message.content =
      [String.join (chunkTexts [Chunk.mk (some "Hi ") none,
        Chunk.mk (some "there!") none])] :=
  ⟨⟨by decide, by decide, by decide⟩,
    (c1_content_is_ordered_concatenation [greeting] "hi" 10 11 12
      [Chunk.mk (some "Hi ") none, Chunk.mk (some "there!") none]
      (by decide) (by decide) (by decide)).1 1,
    (c1_content_is_ordered_concatenation [greeting] "hi" 10 11 12
      [Chunk.mk (some "Hi ") none, Chunk.mk (some "there!") none]
      (by decide) (by decide) (by decide)).2⟩

/-- C2 counterexample: the pair `{uri: "", title: "T"}` has both fields
present (neither is missing), so the claim requires the merged list to
contain a pair with uri `""` exactly once; but JavaScript truthiness of
`c.web?.uri` rejects the empty string, so the code discards the pair and
the count is 0, not 1. -/
theorem c2_counterexample :
    mergeSources [] [GroundingChunk.mk (some (WebInfo.mk (some "") (some "T")))] = [] ∧
      (mergeSources [] [GroundingChunk.mk (some (WebInfo.mk (some "")
        (some "T")))]).countP (fun s => s.uri = "") = 0 :=
  ⟨rfl, rfl⟩

/-- C2 (amended): the source merge discards citation pairs whose uri or
title is missing **or empty**; for every pair with non-empty uri and
title delivered any number of times across the chunks, the merged list
contains a pair with that uri exactly once, it is the first-delivered
pair with that uri, the merged list preserves delivery order (it is a
sublist of the delivered valid pairs) with pairwise-distinct uris, and
the merge is idempotent: re-feeding the same chunks changes nothing. -/
theorem c2_source_merge_dedup_first_seen (gcs : List GroundingChunk) (u : String)
    (hdeliv : ∃ p ∈ validPairs gcs, p.uri = u) :
    (mergeSources [] gcs).Sublist (validPairs gcs) ∧
    (mergeSources [] gcs).Pairwise (fun a b => a.uri ≠ b.uri) ∧
    (mergeSources [] gcs).countP (fun s => s.uri = u) = 1 ∧
    (mergeSources [] gcs).find? (fun s => s.uri = u) =
      (validPairs gcs).find? (fun s => s.uri = u) ∧
    mergeSources (mergeSources [] gcs) gcs = mergeSources [] gcs := by
  have hme : mergeSources [] gcs = pushAll [] (validPairs gcs) :=
    mergeSources_eq_pushAll gcs []
  have hsub : (mergeSources [] gcs).Sublist (validPairs gcs) := by
    obtain ⟨t, ht1, ht2⟩ := pushAll_sublist (validPairs gcs) []
    rw [hme, ht1, List.nil_append]
    exact ht2
  have hpw : (mergeSources [] gcs).Pairwise (fun a b => a.uri ≠ b.uri) := by
    rw [hme]
    exact pushAll_pairwise (validPairs gcs) [] List.Pairwise.nil
  have hcov : ∃ q ∈ mergeSources [] gcs, q.uri = u := by
    rw [hme]
    exact pushAll_covers (validPairs gcs) [] u (Or.inl hdeliv)
  refine ⟨hsub, hpw, countP_uri_eq_one u (mergeSources [] gcs) hpw hcov, ?_, ?_⟩
  · rw [hme]
    exact pushAll_find?_of_none (validPairs gcs) [] u List.find?_nil
  · rw [hme, mergeSources_eq_pushAll]
    apply pushAll_fixed
    intro p hp
    exact pushAll_covers (validPairs gcs) [] p.uri (Or.inl ⟨p, hp, rfl⟩)

/-- Witness for C2 (amended): the pair for `https://x` delivered twice
is kept once, first-seen, and re-merging is a fixpoint. -/
theorem c2_source_merge_dedup_first_seen_witness :
    (∃ p ∈ validPairs [GroundingChunk.mk (some (WebInfo.mk (some "https://x") (some "X"))),
        GroundingChunk.mk (some (WebInfo.mk (some "https://x") (some "X")))],
      p.uri = "https://x") ∧
    ((mergeSources [] [GroundingChunk.mk (some (WebInfo.mk (some "https://x") (some "X"))),
        GroundingChunk.mk (some (WebInfo.mk (some "https://x") (some "X")))]).countP
      (fun s => s.uri = "https://x") = 1 ∧
      mergeSources (mergeSources [] [GroundingChunk.mk (some (WebInfo.mk (some "https://x")
          (some "X"))), GroundingChunk.mk (some (WebInfo.mk (some "https://x") (some "X")))])
        [GroundingChunk.mk (some (WebInfo.mk (some "https://x") (some "X"))),
          GroundingChunk.mk (some (WebInfo.mk (some "https://x") (some "X")))] =
        mergeSources [] [GroundingChunk.mk (some (WebInfo.mk (some "https://x") (some "X"))),
          GroundingChunk.mk (some (WebInfo.mk (some "https://x") (some "X")))]) :=
  ⟨⟨Source.mk "https://x" "X", by decide, rfl⟩,
    (c2_source_merge_dedup_first_seen
      [GroundingChunk.mk (some (WebInfo.mk (some "https://x") (some "X"))),
        GroundingChunk.mk (some (WebInfo.mk (some "https://x") (some "X")))] "https://x"
      ⟨Source.mk "https://x" "X", by decide, rfl⟩).2.2.1,
    (c2_source_merge_dedup_first_seen
      [GroundingChunk.mk (some (WebInfo.mk (some "https://x") (some "X"))),
        GroundingChunk.mk (some (WebInfo.mk (some "https://x") (some "X")))] "https://x"
      ⟨Source.mk "https://x" "X", by decide, rfl⟩).2.2.2.2⟩

/-- C3: for every exchange in which a fault occurs (at context creation
or sending — `failEarly` — or during iteration after any number of
chunks), the consumer stops processing, appends exactly one new
assistant message with the fixed apology text and no sources at the end
of the list, leaves everything before it (in particular the partially
streamed placeholder) exactly as the consumed prefix left it, clears the
pending flag, and clears the input; the fault is absorbed by the
handler, which always returns an ordinary component state. -/
theorem c3_fault_appends_single_apology (msgs : List Message) (input : String)
    (t0 t1 t2 : Nat) (outcome : StreamOutcome) (hin : jsTrim input ≠ "")
    (hfault : outcome = StreamOutcome.failEarly ∨
      ∃ cs, outcome = StreamOutcome.chunks cs true) :
    ∃ pre,
      (handleSubmit msgs input false t0 t1 t2 outcome).messages = pre ++ [mkErrorMsg t2] ∧
      (mkErrorMsg t2).content = apologyText ∧ (mkErrorMsg t2).sources = none ∧
      (mkErrorMsg t2).role = Role.assistant ∧
      (handleSubmit msgs input false t0 t1 t2 outcome).isLoading = false ∧
      (handleSubmit msgs input false t0 t1 t2 outcome).input = "" ∧
      (outcome = StreamOutcome.failEarly → pre = msgs ++ [mkUserMsg input t0]) ∧
      (∀ cs, outcome = StreamOutcome.chunks cs true →
        pre = (cs.foldl (processChunk (Nat.repr (t1 + 1)))
          { messages := (msgs ++ [mkUserMsg input t0]) ++ [mkPlaceholder t1]
            content := "", sources := [] }).messages) := by
  have hg : ¬(jsTrim input = "" ∨ false = true) := by simp [hin]
  rcases hfault with hf | ⟨cs, hf⟩
  · subst hf
    refine ⟨msgs ++ [mkUserMsg input t0], ?_, rfl, rfl, rfl, ?_, ?_, fun _ => rfl, ?_⟩
    · rw [handleSubmit_failEarly _ _ _ _ _ _ hg]
    · rw [handleSubmit_failEarly _ _ _ _ _ _ hg]
    · rw [handleSubmit_failEarly _ _ _ _ _ _ hg]
    · intro cs hcon
      exact absurd hcon (by intro h; cases h)
  · subst hf
    rw [handleSubmit_chunks _ _ _ _ _ _ _ _ hg]
    refine ⟨(cs.foldl (processChunk (Nat.repr (t1 + 1)))
        { messages := (msgs ++ [mkUserMsg input t0]) ++ [mkPlaceholder t1]
          content := "", sources := [] }).messages, rfl, rfl, rfl, rfl, rfl, rfl, ?_, ?_⟩
    · intro hcon
      cases hcon
    · intro cs' hcon
      injection hcon with h1 h2
      rw [← h1]

/-- Witness for C3: an early fault on the initial state appends the user
message and then the apology, with the pending flag cleared. -/
theorem c3_fault_appends_single_apology_witness :
    (jsTrim "hi" ≠ "") ∧
    ∃ pre,
      (handleSubmit [greeting] "hi" false 20 21 22 StreamOutcome.failEarly).messages =
        pre ++ [mkErrorMsg 22] ∧
      (mkErrorMsg 22).content = apologyText ∧ (mkErrorMsg 22).sources = none ∧
      (mkErrorMsg 22).role = Role.assistant ∧
      (handleSubmit [greeting] "hi" false 20 21 22 StreamOutcome.failEarly).isLoading = false ∧
      (handleSubmit [greeting] "hi" false 20 21 22 StreamOutcome.failEarly).input = "" ∧
      (StreamOutcome.failEarly = StreamOutcome.failEarly →
        pre = [greeting] ++ [mkUserMsg "hi" 20]) ∧
      (∀ cs, StreamOutcome.failEarly = StreamOutcome.chunks cs true →
        pre = (cs.foldl (processChunk (Nat.repr (21 + 1)))
          { messages := ([greeting] ++ [mkUserMsg "hi" 20]) ++ [mkPlaceholder 21]
            content := "", sources := [] }).messages) :=
  ⟨by decide,
    c3_fault_appends_single_apology [greeting] "hi" 20 21 22 StreamOutcome.failEarly
      (by decide) (Or.inl rfl)⟩

/-- C9 counterexample: message ids are minted from the wall clock
(`Date.now().toString()`), so a fault in the same millisecond as the
submission gives the apology message the same id as the user message —
the reachable state after one submission at clock 100 that faults at
clock 100 has ids `["1", "100", "100"]`, which are not pairwise
distinct. -/
theorem c9_counterexample :
    ¬ (idsOf (runSession [ExchangeEnv.mk false "hi" 100 100 100
        StreamOutcome.failEarly])).Pairwise (fun a b => a ≠ b) := by
  intro h
  have he : idsOf (runSession [ExchangeEnv.mk false "hi" 100 100 100
      StreamOutcome.failEarly]) = ["1", "100", "100"] := rfl
  rw [he] at h
  rcases List.pairwise_cons.mp h with ⟨_, h2⟩
  rcases List.pairwise_cons.mp h2 with ⟨h3, _⟩
  exact h3 "100" (List.mem_cons_self _ _) rfl

/-- C9 (amended): message ids are pairwise distinct across every
reachable conversation state provided the clock reads of the session are
spaced out: every read is at least 2 and consecutive id-minting reads
(within and across submissions) are at least 2 apart.  Without that
spacing assumption ids can collide, as the same-millisecond fault shows. -/
theorem c9_unique_ids_under_spacing (events : List ExchangeEnv) (h : Spaced 2 events) :
    (idsOf (runSession events)).Pairwise (fun a b => a ≠ b) := by
  have hids := runSession_idsOf events [greeting]
  rw [runSession, hids]
  obtain ⟨hp, hb⟩ := spaced_flatten_lt events 2 h
  have hgr : idsOf [greeting] = [Nat.repr 1] := rfl
  rw [hgr]
  have hcons : (Nat.repr 1 :: ((events.map eventNatIds).flatten).map Nat.repr).Pairwise
      (fun a b => a ≠ b) := by
    rw [List.pairwise_cons]
    constructor
    · intro y hy
      obtain ⟨x, hx, rfl⟩ := List.mem_map.mp hy
      exact natRepr_ne (by have := hb x hx; omega)
    · rw [List.pairwise_map]
      exact hp.imp fun hab => natRepr_ne (Nat.ne_of_lt hab)
  exact hcons

/-- Witness for C9 (amended): a session of two well-spaced submissions
(one completed exchange, one faulted) keeps all ids distinct. -/
theorem c9_unique_ids_under_spacing_witness :
    Spaced 2 [ExchangeEnv.mk false "hi" 10 12 14 (StreamOutcome.chunks [] false),
      ExchangeEnv.mk false "yo" 20 22 24 StreamOutcome.failEarly] ∧
    (idsOf (runSession [ExchangeEnv.mk false "hi" 10 12 14 (StreamOutcome.chunks [] false),
      ExchangeEnv.mk false "yo" 20 22 24 StreamOutcome.failEarly])).Pairwise
      (fun a b => a ≠ b) :=
  ⟨by simp [Spaced], c9_unique_ids_under_spacing
    [ExchangeEnv.mk false "hi" 10 12 14 (StreamOutcome.chunks [] false),
      ExchangeEnv.mk false "yo" 20 22 24 StreamOutcome.failEarly] (by simp [Spaced])⟩

/-- C10: the conversation never starts empty — the initial state is the
single greeting assistant message with id `"1"` — and across any
sequence of submissions, completions and faults (with realistic clock
values, i.e. every `Date.now()` read at least 2) the first message of
every reachable state is still exactly that greeting (never mutated or
removed, all exchanges append after it) and exactly one message in the
conversation carries id `"1"`. -/
theorem c10_greeting_immutable (events : List ExchangeEnv)
    (h : ∀ e ∈ events, 2 ≤ e.t0 ∧ 1 ≤ e.t1 ∧ 2 ≤ e.t2) :
    (runSession events).head? = some greeting ∧
      (idsOf (runSession events)).count "1" = 1 := by
  rw [runSession]
  exact session_invariant events [greeting] h rfl rfl

/-- Witness for C10: after a completed exchange and a faulted exchange
the greeting is still the first message and the only one with id 1. -/
theorem c10_greeting_immutable_witness :
    (∀ e ∈ [ExchangeEnv.mk false "hi" 10 11 12
        (StreamOutcome.chunks [Chunk.mk (some "ok") none] false),
      ExchangeEnv.mk false "yo" 20 21 22 StreamOutcome.failEarly],
      2 ≤ e.t0 ∧ 1 ≤ e.t1 ∧ 2 ≤ e.t2) ∧
    ((runSession [ExchangeEnv.mk false "hi" 10 11 12
        (StreamOutcome.chunks [Chunk.mk (some "ok") none] false),
      ExchangeEnv.mk false "yo" 20 21 22 StreamOutcome.failEarly]).head? = some greeting ∧
      (idsOf (runSession [ExchangeEnv.mk false "hi" 10 11 12
        (StreamOutcome.chunks [Chunk.mk (some "ok") none] false),
      ExchangeEnv.mk false "yo" 20 21 22 StreamOutcome.failEarly])).count "1" = 1) :=
  ⟨by decide, c10_greeting_immutable
    [ExchangeEnv.mk false "hi" 10 11 12
        (StreamOutcome.chunks [Chunk.mk (some "ok") none] false),
      ExchangeEnv.mk false "yo" 20 21 22 StreamOutcome.failEarly] (by decide)⟩
